import Mathlib

/-!
Verification of the ingestion / identity / merge / persistence pipeline of
`rss_CrimeShield.py` (an RSS monitor that fetches feeds, deduplicates articles,
merges them into a growing collection, and persists the result).

The embedding models a pandas `DataFrame` of string cells as a `List Row`,
where a cell is `Option String` (`none` models a missing column or a NaN cell;
both are turned into `""` by `fillna`/column completion in the source).
Randomness (`uuid.uuid4`) is modelled by an explicit supply `Nat → String`
together with a counter that is threaded through every function that can draw
a fresh identifier.  Timestamp parsing (`pd.to_datetime(errors="coerce",
utc=True)`) and re-serialization (`strftime("%Y-%m-%dT%H:%M:%SZ")`) are
modelled by a concrete parser/serializer for the canonical second-granularity
UTC forms the pipeline itself produces ("YYYY-MM-DDTHH:MM:SSZ" and
"YYYY-MM-DDTHH:MM:SS+00:00"); any other string coerces to `none` (NaT).
-/

/-- One article record: the ten columns of the pipeline's tabular schema.
A field is `none` when the column is absent or the cell is NaN. -/
structure Row where
  article_id : Option String
  title : Option String
  published_time_utc : Option String
  author : Option String
  description : Option String
  url : Option String
  image_url : Option String
  source_name : Option String
  source_feed_url : Option String
  fetched_at_utc : Option String
deriving DecidableEq, Repr

/-- A DataFrame of article rows. -/
abbrev DF := List Row

/-- Safe-string coercion of one cell: models `fillna("")`/`s(x)` (None/NaN
become the empty string). -/
def fillCell (c : Option String) : String := c.getD ""

/-- The id of a row read as a string (`df["article_id"].astype(str)`). -/
def idOf (r : Row) : String := fillCell r.article_id

/-- Models `series.str.strip().eq("")`: a string is blank when it consists of
whitespace only. -/
def isBlank (s : String) : Bool := s.data.all (·.isWhitespace)

/-- The fixed namespace constant `uuid.NAMESPACE_URL`. -/
def NAMESPACE_URL : String := "6ba7b811-9dad-11d1-80b4-00c04fd430c8"

/-- Modelled from the spec: `uuid.uuid5(namespace, name)` (library code outside
the repository) is "a deterministic hash-based identifier from a fixed
namespace constant and the URL string"; modelled as a deterministic injective
encoding of namespace and name. -/
def uuid5 (ns name : String) : String := "uuid5-" ++ ns ++ "-" ++ name

/-- `gen_article_id` (src line 189): a fresh random identifier (`fresh`, the
next `uuid.uuid4()` draw) when the url is absent or empty, otherwise the
deterministic `uuid5(NAMESPACE_URL, url)`. -/
def gen_article_id (fresh : String) (url : Option String) : String :=
  match url with
  | none => fresh
  | some u => if u = "" then fresh else uuid5 NAMESPACE_URL u

/-- The 19-character canonical timestamp core "YYYY-MM-DDTHH:MM:SS". -/
def canonCore (l : List Char) : Bool :=
  match l with
  | [y1, y2, y3, y4, '-', mo1, mo2, '-', d1, d2, 'T',
     h1, h2, ':', mi1, mi2, ':', s1, s2] =>
      y1.isDigit && y2.isDigit && y3.isDigit && y4.isDigit &&
      mo1.isDigit && mo2.isDigit && d1.isDigit && d2.isDigit &&
      h1.isDigit && h2.isDigit && mi1.isDigit && mi2.isDigit &&
      s1.isDigit && s2.isDigit
  | _ => false

/-- Character-level timestamp parser: accepts the canonical UTC forms
`core ++ "Z"` and `core ++ "+00:00"` and returns the core; anything else is
unparseable. -/
def parseTimeChars (l : List Char) : Option (List Char) :=
  if (l.getLast? == some 'Z') && canonCore l.dropLast then
    some l.dropLast
  else if (l.length == 25) && (l.drop 19 == ['+', '0', '0', ':', '0', '0'])
      && canonCore (l.take 19) then
    some (l.take 19)
  else none

/-- Models `pd.to_datetime(col, errors="coerce", utc=True)` restricted to the
canonical forms the pipeline produces: the result is the canonical core (whose
lexicographic order is chronological order), or `none` for NaT. -/
def parseTime (s : String) : Option String :=
  (parseTimeChars s.data).map String.mk

/-- Models `dt.strftime("%Y-%m-%dT%H:%M:%SZ")` applied to a parsed value. -/
def serTime (t : String) : String := t ++ "Z"

/-- The sort key of a row: its parsed published time, with NaT as `⊥`
(missing timestamps sort after all real ones under the descending order). -/
def sortKey (r : Row) : WithBot String :=
  match parseTime (fillCell r.published_time_utc) with
  | none => ⊥
  | some t => (t : WithBot String)

/-- The comparison used by `sort_values("__sort_key", ascending=False,
kind="stable")`: `a` may come before `b` when `a`'s key is ≥ `b`'s. -/
def keyGE (a b : Row) : Prop := sortKey b ≤ sortKey a

instance : DecidableRel keyGE := fun a b =>
  (inferInstance : Decidable (sortKey b ≤ sortKey a))

instance : IsTotal Row keyGE :=
  ⟨fun a b => (le_total (sortKey b) (sortKey a)).imp id id⟩

instance : IsTrans Row keyGE :=
  ⟨fun _ _ _ hab hbc => le_trans hbc hab⟩

/-- Schema completion + safe-string coercion of one row: models the
`for c in cols: df[c] = ""` loop followed by `df.fillna("").astype(str)`. -/
def fillRow (r : Row) : Row where
  article_id := some (fillCell r.article_id)
  title := some (fillCell r.title)
  published_time_utc := some (fillCell r.published_time_utc)
  author := some (fillCell r.author)
  description := some (fillCell r.description)
  url := some (fillCell r.url)
  image_url := some (fillCell r.image_url)
  source_name := some (fillCell r.source_name)
  source_feed_url := some (fillCell r.source_feed_url)
  fetched_at_utc := some (fillCell r.fetched_at_utc)

/-- Id backfill for one row (the lambda at src line 247): a row with a blank
id gets `gen_article_id(url)` when the url is non-empty, else the next
`uuid.uuid4()` draw (consuming one supply value). -/
def backfillRow (supply : Nat → String) (r : Row) (k : Nat) : Row × Nat :=
  if isBlank (fillCell r.article_id) then
    if fillCell r.url = "" then
      ({ r with article_id := some (supply k) }, k + 1)
    else
      ({ r with article_id := some (gen_article_id (supply k)
          (some (fillCell r.url))) }, k)
  else (r, k)

/-- Id backfill over the rows in input order, threading the uuid4 counter. -/
def backfillList (supply : Nat → String) : List Row → Nat → List Row × Nat
  | [], k => ([], k)
  | r :: rs, k =>
      let p := backfillRow supply r k
      let q := backfillList supply rs p.2
      (p.1 :: q.1, q.2)

/-- `normalize_ids` (src lines 228-249): empty input gives the empty frame;
otherwise complete the schema, coerce cells to strings, and backfill blank
ids (URL-derived when possible, otherwise freshly random). -/
def normalize_ids (supply : Nat → String) (df : DF) (k : Nat) : DF × Nat :=
  if df = [] then ([], k)
  else backfillList supply (df.map fillRow) k

/-- `drop_duplicates(subset=["article_id"], keep="first")`: keep the first
occurrence of each article id, in input order. -/
def dropDupAux : List String → List Row → List Row
  | _, [] => []
  | seen, r :: rs =>
      if idOf r ∈ seen then dropDupAux seen rs
      else r :: dropDupAux (idOf r :: seen) rs

/-- Duplicate elimination by article id, keeping first occurrences. -/
def dropDup (df : DF) : DF := dropDupAux [] df

/-- The stable descending sort by published time (`sort_values` with
`ascending=False, kind="stable"`, NaT last): insertion sort under `keyGE`,
which is stable and puts `⊥` (NaT) after every real timestamp. -/
def sortRows (df : DF) : DF := List.insertionSort keyGE df

/-- The column assignment `df["published_time_utc"] = dt.strftime(...)`:
re-serialize the parsed time to canonical form; NaT becomes NaN (`none`),
which the final `normalize_ids` turns into `""`. -/
def reserializeRow (r : Row) : Row :=
  { r with published_time_utc :=
      (parseTime (fillCell r.published_time_utc)).map serTime }

/-- `dedupe_df` (src lines 251-260): normalize, drop duplicate ids, stably
sort by published time descending, re-serialize the timestamps, and
normalize again. -/
def dedupe_df (supply : Nat → String) (df : DF) (k : Nat) : DF × Nat :=
  let p := normalize_ids supply df k
  let df2 := dropDup p.1
  let df3 := sortRows df2
  let df4 := df3.map reserializeRow
  normalize_ids supply df4 p.2

/-- `merge_new` (src lines 345-363): dedupe both inputs (fresh first, then
existing, matching the source's draw order); if the deduped existing
collection is empty the result is the deduped fresh collection and every one
of its ids is new; otherwise the rows of fresh whose id is not yet present
are appended to existing and the union is deduped, and exactly their ids are
reported as new. -/
def merge_new (supply : Nat → String) (existing freshly : DF) (k : Nat) :
    (DF × List String) × Nat :=
  let pf := dedupe_df supply freshly k
  let pe := dedupe_df supply existing pf.2
  if pe.1 = [] then
    ((pf.1, pf.1.map idOf), pe.2)
  else
    let existingIds := pe.1.map idOf
    let added := pf.1.filter (fun r => decide (idOf r ∉ existingIds))
    let pt := dedupe_df supply (pe.1 ++ added) pe.2
    ((pt.1, added.map idOf), pt.2)

/-- A supply of fresh identifiers is good when every draw is non-blank, as
every real `uuid.uuid4()` string is. -/
def GoodSupply (supply : Nat → String) : Prop :=
  ∀ n, isBlank (supply n) = false

/-- A row is normalized when its cells are all materialized strings
(`fillRow` fixes it) and its article id is non-blank. -/
def NormRow (r : Row) : Prop := fillRow r = r ∧ isBlank (idOf r) = false

/-- A published-time cell is canonical when re-parsing and re-serializing it
leaves it unchanged: either it is the serialization of its own parse, or it
is unparseable and empty. -/
def canonPub (p : String) : Prop :=
  match parseTime p with
  | none => p = ""
  | some t => serTime t = p

/-- A row is canonical when it is normalized and its published time is in
canonical form — exactly the shape of `dedupe_df` output rows. -/
def CanonRow (r : Row) : Prop :=
  NormRow r ∧ canonPub (fillCell r.published_time_utc)

/-- The per-row effect of the re-serialization plus final normalization tail
of `dedupe_df`. -/
def canonizeRow (r : Row) : Row := fillRow (reserializeRow r)

/-- `fetch_all_feeds` (src lines 316-327).  The per-source fetch+parse
(`fetch_feed_rows`, whose network and parser can raise) is an oracle
`feed : url → Except error rows`; the `try/except: pass` around each source
keeps only the successful frames, which are concatenated in source-list
order (`pd.concat`) and deduped. -/
def fetch_all_feeds (feed : String → Except String DF) (supply : Nat → String)
    (feed_urls : List String) (k : Nat) : DF × Nat :=
  let frames := feed_urls.filterMap (fun u => (feed u).toOption)
  dedupe_df supply frames.flatten k

/-- Lowercase hexadecimal digit test, as accepted by the canonical
`uuid.UUID` string form. -/
def isHexChar (c : Char) : Bool := c.isDigit || ('a' ≤ c && c ≤ 'f')

/-- Models `uuid.UUID(str(val))` succeeding: the canonical hyphenated
8-4-4-4-12 lowercase-hex form. -/
def isValidUUID (s : String) : Bool :=
  (s.data.length == 36) &&
  s.data.enum.all (fun ic =>
    if ic.1 = 8 ∨ ic.1 = 13 ∨ ic.1 = 18 ∨ ic.1 = 23 then ic.2 == '-'
    else isHexChar ic.2)

/-- `safe_uuid` (src lines 88-93): parse the value as a UUID, falling back to
a fresh random UUID (`fresh`, the next `uuid.uuid4()` draw) when malformed. -/
def safe_uuid (fresh : String) (v : String) : String :=
  if isValidUUID v then v else fresh

/-- One tuple of the upsert batch built by `df_to_rows` for `UPSERT_SQL`. -/
structure DbRow where
  article_id : String
  title : String
  published_time : Option String
  author : Option String
  description : Option String
  url : Option String
  image_url : Option String
  source_name : Option String
  source_feed_url : Option String
  fetched_at_utc : String
deriving DecidableEq, Repr

/-- Python's `x or None` on a string: empty becomes NULL. -/
def orNone (s : String) : Option String := if s = "" then none else some s

/-- One row of `df_to_rows` (src lines 114-127): key via `safe_uuid` (drawing
a fresh random UUID when the id is malformed), truncate the title, parse the
timestamps (a missing `fetched_at` falls back to `datetime.now`, the `now`
argument), and NULL out empty optional fields. -/
def rowToDb (freshU : Nat → String) (now : String) (r : Row) (k : Nat) :
    DbRow × Nat :=
  ({ article_id := safe_uuid (freshU k) (fillCell r.article_id)
   , title := String.mk ((fillCell r.title).data.take 10000)
   , published_time := parseTime (fillCell r.published_time_utc)
   , author := orNone (fillCell r.author)
   , description := orNone (fillCell r.description)
   , url := orNone (fillCell r.url)
   , image_url := orNone (fillCell r.image_url)
   , source_name := orNone (fillCell r.source_name)
   , source_feed_url := orNone (fillCell r.source_feed_url)
   , fetched_at_utc := (parseTime (fillCell r.fetched_at_utc)).getD now },
   if isValidUUID (fillCell r.article_id) then k else k + 1)

/-- `df_to_rows` (src lines 95-128): map the DataFrame to upsert tuples in
row order, threading the uuid4 counter for `safe_uuid` fallbacks. -/
def df_to_rows (freshU : Nat → String) (now : String) : DF → Nat → List DbRow × Nat
  | [], k => ([], k)
  | r :: rs, k =>
      let p := rowToDb freshU now r k
      let q := df_to_rows freshU now rs p.2
      (p.1 :: q.1, q.2)

/-- Observable side effects of one `poll_once` cycle. -/
inductive Ev where
  | upsert (rows : DF)
  | upsertError
  | prefetch (ids : List String)
  | snapshot (rows : DF)
  | refresh (rows : DF) (newIds : List String)
deriving DecidableEq, Repr

/-- The persistence logic of `VrtDesktopApp.poll_once` (src lines 611-643)
after the fetch has produced `freshFetched`: merge, attempt the durable
upsert of the new-id subset inside its own try/except (`dbFails` says the
database raised; the failure is caught and only reported), optionally
prefetch images for new ids, and write the snapshot (`save_csv`) and refresh
the table only when `new_ids` is non-empty. -/
def poll_once (supply : Nat → String) (current freshFetched : DF) (k : Nat)
    (dbFails autoDl : Bool) : List Ev :=
  let m := merge_new supply current freshFetched k
  let combined := m.1.1
  let new_ids := m.1.2
  let toWrite := if new_ids = [] then []
    else combined.filter (fun r => decide (idOf r ∈ new_ids))
  (Ev.upsert toWrite :: (if dbFails then [Ev.upsertError] else [])) ++
  (if new_ids ≠ [] ∧ autoDl then [Ev.prefetch new_ids] else []) ++
  (if new_ids ≠ [] then [Ev.snapshot combined, Ev.refresh combined new_ids]
   else [Ev.refresh combined []])

/-- File-system operations a persistence routine performs. -/
inductive FileOp where
  | write (path : String) (rows : DF)
  | rename (src dst : String)
deriving DecidableEq, Repr

/-- The snapshot path `CSV_OUT` (src line 28). -/
def CSV_OUT : String := "vrt_nws_latest.csv"

/-- The Excel export path and its temporary sibling (src lines 710-711). -/
def XLSX_OUT : String := "vrt_nws_latest.xlsx"

/-- The temporary file used by the Excel export. -/
def XLSX_TMP : String := "vrt_nws_latest.tmp.xlsx"

/-- `save_csv` (src lines 342-343): a single direct
`dedupe_df(df).to_csv(CSV_OUT)` call — the file operations it performs. -/
def save_csv (supply : Nat → String) (df : DF) (k : Nat) : List FileOp :=
  [FileOp.write CSV_OUT (dedupe_df supply df k).1]

/-- The happy path of `export_excel` (src lines 710-714): write to a
temporary file, then `os.replace` it over the final path. -/
def export_excel (rows : DF) : List FileOp :=
  [FileOp.write XLSX_TMP rows, FileOp.rename XLSX_TMP XLSX_OUT]

/-- An operation list atomically replaces `dst` when it writes a distinct
temporary file and then renames it over `dst`. -/
def AtomicReplace (ops : List FileOp) (dst : String) : Prop :=
  ∃ tmp rows, tmp ≠ dst ∧ ops = [FileOp.write tmp rows, FileOp.rename tmp dst]

/-- A heap of DataFrame objects plus the uuid4 counter: makes Python's object
mutation explicit, so that non-mutation of caller arguments is provable. -/
structure PdState where
  heap : List DF
  ctr : Nat

/-- Read the frame referenced by `r`. -/
def PdState.get (st : PdState) (r : Nat) : DF := st.heap.getD r []

/-- Allocate a new frame object, returning its reference. -/
def PdState.alloc (st : PdState) (v : DF) : Nat × PdState :=
  (st.heap.length, ⟨st.heap ++ [v], st.ctr⟩)

/-- Mutate the frame object referenced by `r` in place. -/
def PdState.set (st : PdState) (r : Nat) (v : DF) : PdState :=
  ⟨st.heap.set r v, st.ctr⟩

/-- `normalize_ids` at the object level: the argument frame `i` is read, then
`df.copy()` allocates a fresh object and every subsequent mutation
(column-completion writes, the `.loc` id backfill) targets the copies, never
the argument. -/
def normalize_idsS (supply : Nat → String) (i : Nat) (st : PdState) :
    Nat × PdState :=
  if st.get i = [] then st.alloc []
  else
    let a1 := st.alloc (st.get i)
    let st2 := a1.2.set a1.1 (a1.2.get a1.1)
    let a2 := st2.alloc ((st2.get a1.1).map fillRow)
    let bf := backfillList supply (a2.2.get a2.1) a2.2.ctr
    let st4 : PdState := ⟨(a2.2.set a2.1 bf.1).heap, bf.2⟩
    st4.alloc (st4.get a2.1)

/-- `dedupe_df` at the object level: `drop_duplicates` and the
assign/sort/drop chain return new frames; the timestamp column assignment
mutates the sorted frame in place. -/
def dedupe_dfS (supply : Nat → String) (i : Nat) (st : PdState) :
    Nat × PdState :=
  let n1 := normalize_idsS supply i st
  let a1 := n1.2.alloc (dropDup (n1.2.get n1.1))
  let a2 := a1.2.alloc (sortRows (a1.2.get a1.1))
  let st3 := a2.2.set a2.1 ((a2.2.get a2.1).map reserializeRow)
  normalize_idsS supply a2.1 st3

/-- `merge_new` at the object level: both arguments are rebound to fresh
deduped frames; the `astype(str)` column write mutates the deduped fresh
frame (a new object), and `added`/`concat` allocate. -/
def merge_newS (supply : Nat → String) (iExisting iFresh : Nat)
    (st : PdState) : (Nat × List String) × PdState :=
  let f := dedupe_dfS supply iFresh st
  let e := dedupe_dfS supply iExisting f.2
  if e.2.get e.1 = [] then
    ((f.1, (e.2.get f.1).map idOf), e.2)
  else
    let existingIds := (e.2.get e.1).map idOf
    let st3 := e.2.set f.1 (e.2.get f.1)
    let added := (st3.get f.1).filter (fun r => decide (idOf r ∉ existingIds))
    let a1 := st3.alloc added
    let a2 := a1.2.alloc (a1.2.get e.1 ++ a1.2.get a1.1)
    let t := dedupe_dfS supply a2.1 a2.2
    ((t.1, (t.2.get a1.1).map idOf), t.2)

/-- `t` extends `s` when the heap of `t` agrees with that of `s` on every
object that already existed in `s`: no pre-existing object was mutated. -/
def Extends (s t : PdState) : Prop :=
  t.heap.take s.heap.length = s.heap

/-- The deduped fresh input computed first inside `merge_new`
(the rebound local `freshly` of src line 347). -/
def mergeFreshly (supply : Nat → String) (fresh : DF) (k : Nat) : DF :=
  (dedupe_df supply fresh k).1

/-- The deduped existing input computed second inside `merge_new`
(the rebound local `existing` of src line 348). -/
def mergeExisting (supply : Nat → String) (existing fresh : DF) (k : Nat) : DF :=
  (dedupe_df supply existing (dedupe_df supply fresh k).2).1

/-- The `added` rows of a merge (src line 358): deduped fresh rows whose id
is absent from the deduped existing collection. -/
def mergeAdded (supply : Nat → String) (existing fresh : DF) (k : Nat) : DF :=
  (mergeFreshly supply fresh k).filter
    (fun r => decide (idOf r ∉ (mergeExisting supply existing fresh k).map idOf))

/-- A sample good supply of fresh uuid draws, for concrete instantiations. -/
def wSup : Nat → String := fun _ => "w"

/-- A sample canonical row with id "aaa" and title "Old". -/
def rowOld : Row where
  article_id := some "aaa"
  title := some "Old"
  published_time_utc := some "2024-01-02T03:04:05Z"
  author := some ""
  description := some ""
  url := some ""
  image_url := some ""
  source_name := some ""
  source_feed_url := some ""
  fetched_at_utc := some ""

/-- The same article re-fetched upstream with a changed title. -/
def rowNew : Row := { rowOld with title := some "New" }

/-- A sample canonical row with a distinct id "ddd" and an older timestamp. -/
def rowD : Row :=
  { rowOld with
    article_id := some "ddd"
    title := some "D"
    published_time_utc := some "2024-01-01T00:00:00Z" }

/-- A row whose article id is not a parseable UUID. -/
def badRow : Row := { rowOld with article_id := some "not-a-uuid" }

/-- A row with a valid canonical UUID id and a parseable fetch time. -/
def rowValid : Row :=
  { rowOld with
    article_id := some "aaaaaaaa-aaaa-aaaa-aaaa-aaaaaaaaaaaa"
    fetched_at_utc := some "2024-01-02T03:04:05Z" }

theorem str_data_append (s t : String) : (s ++ t).data = s.data ++ t.data := rfl

theorem uuid5_not_blank (ns name : String) : isBlank (uuid5 ns name) = false := by
  have h0 : List.all "uuid5-".data (·.isWhitespace) = false := by decide
  simp [isBlank, uuid5, str_data_append, List.all_append, h0]

theorem parseTime_empty : parseTime "" = none := rfl

theorem parseTime_canonCore {s t : String} (h : parseTime s = some t) :
    canonCore t.data = true := by
  unfold parseTime at h
  rw [Option.map_eq_some'] at h
  obtain ⟨l, hl, rfl⟩ := h
  unfold parseTimeChars at hl
  split at hl
  · next hc =>
      obtain ⟨-, hc2⟩ := Bool.and_eq_true_iff.mp hc
      cases hl
      exact hc2
  · split at hl
    · next hc =>
        obtain ⟨-, hc2⟩ := Bool.and_eq_true_iff.mp hc
        cases hl
        exact hc2
    · cases hl

theorem parseTime_serTime {t : String} (h : canonCore t.data = true) :
    parseTime (serTime t) = some t := by
  have hd : (serTime t).data = t.data ++ ['Z'] := rfl
  unfold parseTime parseTimeChars
  rw [hd, List.getLast?_concat, List.dropLast_concat]
  simp [h]

theorem fillCell_some (x : String) : fillCell (some x) = x := rfl

theorem fillRow_fillRow (r : Row) : fillRow (fillRow r) = fillRow r := by
  cases r; simp [fillRow, fillCell]

theorem fillRow_set_id {r : Row} (hf : fillRow r = r) (x : String) :
    fillRow { r with article_id := some x } = { r with article_id := some x } := by
  cases r
  simp_all [fillRow, fillCell, Row.mk.injEq]

theorem idOf_canonize (r : Row) : idOf (canonizeRow r) = idOf r := by
  cases r; simp [canonizeRow, fillRow, reserializeRow, idOf, fillCell]

theorem sortKey_canonize (r : Row) : sortKey (canonizeRow r) = sortKey r := by
  unfold sortKey canonizeRow reserializeRow
  cases hp : parseTime (fillCell r.published_time_utc) with
  | none => simp [fillRow, fillCell, hp, parseTime_empty]
  | some t =>
      have hc := parseTime_canonCore hp
      simp [fillRow, fillCell, hp, parseTime_serTime hc]

theorem backfillRow_fix {r : Row} (supply : Nat → String) (k : Nat)
    (h : isBlank (idOf r) = false) : backfillRow supply r k = (r, k) := by
  unfold backfillRow
  simp [show isBlank (fillCell r.article_id) = false from h]

theorem backfillRow_normRow {supply : Nat → String} (hGS : GoodSupply supply)
    {r : Row} (hf : fillRow r = r) (k : Nat) :
    NormRow (backfillRow supply r k).1 := by
  unfold backfillRow
  by_cases hb : isBlank (fillCell r.article_id) = true
  · rw [if_pos hb]
    by_cases hu : fillCell r.url = ""
    · rw [if_pos hu]
      exact ⟨fillRow_set_id hf _, by simpa [idOf, fillCell] using hGS k⟩
    · rw [if_neg hu]
      refine ⟨fillRow_set_id hf _, ?_⟩
      have hu2 : ¬ r.url.getD "" = "" := hu
      simp [idOf, fillCell, gen_article_id, hu2, uuid5_not_blank]
  · rw [if_neg hb]
    exact ⟨hf, by simpa [idOf] using Bool.not_eq_true _ |>.mp hb⟩

theorem backfillList_fix {supply : Nat → String} {l : List Row} {k : Nat}
    (h : ∀ r ∈ l, isBlank (idOf r) = false) :
    backfillList supply l k = (l, k) := by
  induction l generalizing k with
  | nil => rfl
  | cons r rs ih =>
      have h1 := backfillRow_fix supply k (h r (List.mem_cons_self r rs))
      have h2 := ih (k := k) (fun x hx => h x (List.mem_cons_of_mem _ hx))
      simp [backfillList, h1, h2]

theorem backfillList_normRow {supply : Nat → String} (hGS : GoodSupply supply)
    {l : List Row} {k : Nat} (h : ∀ r ∈ l, fillRow r = r) :
    ∀ x ∈ (backfillList supply l k).1, NormRow x := by
  induction l generalizing k with
  | nil => intro x hx; cases hx
  | cons r rs ih =>
      intro x hx
      unfold backfillList at hx
      rcases List.mem_cons.mp hx with hx | hx
      · subst hx
        exact backfillRow_normRow hGS (h r (List.mem_cons_self r rs)) k
      · exact ih (fun y hy => h y (List.mem_cons_of_mem _ hy)) x hx

theorem normalize_ids_normRow {supply : Nat → String} (hGS : GoodSupply supply)
    (df : DF) (k : Nat) : ∀ r ∈ (normalize_ids supply df k).1, NormRow r := by
  unfold normalize_ids
  split
  · intro r hr; cases hr
  · exact backfillList_normRow hGS (fun r hr => by
      obtain ⟨r0, -, rfl⟩ := List.mem_map.mp hr
      exact fillRow_fillRow r0)

theorem normalize_ids_fix {supply : Nat → String} {l : DF} (k : Nat)
    (h : ∀ r ∈ l, NormRow r) : normalize_ids supply l k = (l, k) := by
  unfold normalize_ids
  split
  · next heq => rw [heq]
  · have hm : l.map fillRow = l := by
      rw [List.map_congr_left (fun r hr => (h r hr).1)]
      exact List.map_id' l
    rw [hm]
    exact backfillList_fix (fun r hr => (h r hr).2)

theorem normalize_ids_reser {supply : Nat → String} (l : List Row) (k : Nat)
    (h : ∀ r ∈ l, NormRow r) :
    normalize_ids supply (l.map reserializeRow) k = (l.map canonizeRow, k) := by
  unfold normalize_ids
  split
  · next heq =>
      have hl : l = [] := List.map_eq_nil_iff.mp heq
      subst hl; rfl
  · rw [List.map_map]
    have hc : l.map (fillRow ∘ reserializeRow) = l.map canonizeRow := rfl
    rw [hc]
    exact backfillList_fix (fun r hr => by
      obtain ⟨r0, hr0, rfl⟩ := List.mem_map.mp hr
      rw [idOf_canonize]
      exact (h r0 hr0).2)

theorem fillRow_set_pub {r : Row} (hf : fillRow r = r) (c : Option String) :
    fillRow { r with published_time_utc := c }
      = { r with published_time_utc := some (fillCell c) } := by
  cases r
  simp_all [fillRow, fillCell, Row.mk.injEq]

theorem filled_pub {r : Row} (hf : fillRow r = r) :
    r.published_time_utc = some (fillCell r.published_time_utc) := by
  obtain ⟨a, b, p, c, d, e, f, g, h, i⟩ := r
  simp only [fillRow, Row.mk.injEq] at hf
  exact hf.2.2.1.symm

theorem canonize_canon {r : Row} (h : NormRow r) : CanonRow (canonizeRow r) := by
  refine ⟨⟨fillRow_fillRow _, ?_⟩, ?_⟩
  · rw [idOf_canonize]; exact h.2
  · unfold canonizeRow reserializeRow
    cases hp : parseTime (fillCell r.published_time_utc) with
    | none => simp [fillRow, fillCell, canonPub, parseTime_empty]
    | some t =>
        have hc := parseTime_canonCore hp
        simp [fillRow, fillCell, canonPub, parseTime_serTime hc]

theorem canonize_fix {r : Row} (h : CanonRow r) : canonizeRow r = r := by
  obtain ⟨⟨hf, -⟩, hp⟩ := h
  have hfp := filled_pub hf
  unfold canonPub at hp
  unfold canonizeRow reserializeRow
  rw [fillRow_set_pub hf]
  cases hq : parseTime (fillCell r.published_time_utc) with
  | none =>
      have hp2 : fillCell r.published_time_utc = "" := by
        rw [hq] at hp; exact hp
      have hr : r.published_time_utc = some "" := by rw [hfp, hp2]
      have hgoal : some (fillCell (Option.map serTime (none : Option String)))
          = some "" := rfl
      rw [hgoal, ← hr]
  | some t =>
      have hp2 : serTime t = fillCell r.published_time_utc := by
        rw [hq] at hp; exact hp
      have hr : r.published_time_utc = some (serTime t) := by rw [hfp, ← hp2]
      have hgoal : some (fillCell (Option.map serTime (some t)))
          = some (serTime t) := rfl
      rw [hgoal, ← hr]

theorem dropDupAux_subset {seen : List String} {l : List Row} :
    ∀ r ∈ dropDupAux seen l, r ∈ l := by
  induction l generalizing seen with
  | nil => intro r hr; cases hr
  | cons a as ih =>
      intro r hr
      unfold dropDupAux at hr
      split at hr
      · exact List.mem_cons_of_mem _ (ih r hr)
      · rcases List.mem_cons.mp hr with h | h
        · exact h ▸ List.mem_cons_self _ _
        · exact List.mem_cons_of_mem _ (ih r h)

theorem dropDupAux_nodup : ∀ (l : List Row) (seen : List String),
    ((dropDupAux seen l).map idOf).Nodup ∧
      ∀ x ∈ (dropDupAux seen l).map idOf, x ∉ seen
  | [], seen => ⟨List.nodup_nil, by simp [dropDupAux]⟩
  | a :: as, seen => by
      unfold dropDupAux
      by_cases hmem : idOf a ∈ seen
      · rw [if_pos hmem]; exact dropDupAux_nodup as seen
      · rw [if_neg hmem]
        obtain ⟨h1, h2⟩ := dropDupAux_nodup as (idOf a :: seen)
        constructor
        · rw [List.map_cons, List.nodup_cons]
          exact ⟨fun hx => (h2 _ hx) (List.mem_cons_self _ _), h1⟩
        · intro x hx
          rw [List.map_cons] at hx
          rcases List.mem_cons.mp hx with h | h
          · subst h; exact hmem
          · exact fun hxs => (h2 x h) (List.mem_cons_of_mem _ hxs)

theorem dropDup_nodup (df : DF) : ((dropDup df).map idOf).Nodup :=
  (dropDupAux_nodup df []).1

theorem dropDupAux_fix : ∀ (l : List Row) (seen : List String),
    (l.map idOf).Nodup → (∀ x ∈ l.map idOf, x ∉ seen) → dropDupAux seen l = l
  | [], _, _, _ => rfl
  | a :: as, seen, h1, h2 => by
      rw [List.map_cons, List.nodup_cons] at h1
      unfold dropDupAux
      rw [if_neg (h2 (idOf a) (by simp))]
      rw [dropDupAux_fix as (idOf a :: seen) h1.2 (fun x hx => by
        intro hxs
        rcases List.mem_cons.mp hxs with h | h
        · exact h1.1 (h ▸ hx)
        · exact h2 x (List.mem_cons_of_mem _ hx) h)]

theorem dropDup_fix {df : DF} (h : (df.map idOf).Nodup) : dropDup df = df :=
  dropDupAux_fix df [] h (by simp)

theorem orderedInsert_filter_pos {v : WithBot String} {a : Row} (l : List Row)
    (ha : sortKey a = v) :
    (l.orderedInsert keyGE a).filter (fun r => decide (sortKey r = v))
      = a :: l.filter (fun r => decide (sortKey r = v)) := by
  induction l with
  | nil => simp [List.orderedInsert, ha]
  | cons b bs ih =>
      by_cases h : keyGE a b
      · simp [List.orderedInsert, if_pos h, List.filter_cons, ha]
      · have hb : ¬ sortKey b = v := by
          have hlt : sortKey a < sortKey b := not_le.mp h
          rw [← ha]
          exact fun he => absurd hlt (by rw [he]; exact lt_irrefl _)
        simp [List.orderedInsert, if_neg h, List.filter_cons, hb, ih]

theorem orderedInsert_filter_neg {v : WithBot String} {a : Row} (l : List Row)
    (ha : ¬ sortKey a = v) :
    (l.orderedInsert keyGE a).filter (fun r => decide (sortKey r = v))
      = l.filter (fun r => decide (sortKey r = v)) := by
  induction l with
  | nil => simp [List.orderedInsert, ha]
  | cons b bs ih =>
      by_cases h : keyGE a b
      · simp [List.orderedInsert, if_pos h, List.filter_cons, ha]
      · simp [List.orderedInsert, if_neg h, List.filter_cons, ih]

theorem insertionSort_filter_key (v : WithBot String) :
    ∀ l : List Row,
      (List.insertionSort keyGE l).filter (fun r => decide (sortKey r = v))
        = l.filter (fun r => decide (sortKey r = v))
  | [] => rfl
  | a :: as => by
      rw [List.insertionSort]
      by_cases ha : sortKey a = v
      · rw [orderedInsert_filter_pos _ ha, insertionSort_filter_key v as]
        simp [List.filter_cons, ha]
      · rw [orderedInsert_filter_neg _ ha, insertionSort_filter_key v as]
        simp [List.filter_cons, ha]

theorem filter_key_map_canonize (v : WithBot String) :
    ∀ l : List Row,
      (l.map canonizeRow).filter (fun r => decide (sortKey r = v))
        = (l.filter (fun r => decide (sortKey r = v))).map canonizeRow
  | [] => rfl
  | a :: as => by
      by_cases ha : sortKey a = v
      · simp [List.filter_cons, sortKey_canonize, ha,
          filter_key_map_canonize v as]
      · simp [List.filter_cons, sortKey_canonize, ha,
          filter_key_map_canonize v as]

theorem dedupe_df_eq {supply : Nat → String} (hGS : GoodSupply supply)
    (df : DF) (k : Nat) :
    dedupe_df supply df k
      = ((sortRows (dropDup (normalize_ids supply df k).1)).map canonizeRow,
         (normalize_ids supply df k).2) := by
  have h : ∀ r ∈ sortRows (dropDup (normalize_ids supply df k).1), NormRow r := by
    intro r hr
    have hr1 : r ∈ dropDup (normalize_ids supply df k).1 :=
      (List.perm_insertionSort keyGE _).mem_iff.mp hr
    exact normalize_ids_normRow hGS df k r (dropDupAux_subset r hr1)
  exact normalize_ids_reser _ _ h

theorem dedupe_df_canon {supply : Nat → String} (hGS : GoodSupply supply)
    (df : DF) (k : Nat) : ∀ r ∈ (dedupe_df supply df k).1, CanonRow r := by
  rw [dedupe_df_eq hGS]
  intro r hr
  obtain ⟨r0, hr0, rfl⟩ := List.mem_map.mp hr
  apply canonize_canon
  have hr1 : r0 ∈ dropDup (normalize_ids supply df k).1 :=
    (List.perm_insertionSort keyGE _).mem_iff.mp hr0
  exact normalize_ids_normRow hGS df k r0 (dropDupAux_subset r0 hr1)

theorem dedupe_df_ids_nodup {supply : Nat → String} (hGS : GoodSupply supply)
    (df : DF) (k : Nat) : (((dedupe_df supply df k).1).map idOf).Nodup := by
  rw [dedupe_df_eq hGS]
  have h1 : ((sortRows (dropDup (normalize_ids supply df k).1)).map canonizeRow).map idOf
      = (sortRows (dropDup (normalize_ids supply df k).1)).map idOf := by
    rw [List.map_map]
    exact List.map_congr_left (fun r _ => idOf_canonize r)
  show (((sortRows (dropDup (normalize_ids supply df k).1)).map canonizeRow).map idOf).Nodup
  rw [h1]
  have hperm := (List.perm_insertionSort keyGE
    (dropDup (normalize_ids supply df k).1)).map idOf
  exact hperm.nodup_iff.mpr (dropDup_nodup _)

theorem dedupe_df_sorted {supply : Nat → String} (hGS : GoodSupply supply)
    (df : DF) (k : Nat) : List.Pairwise keyGE ((dedupe_df supply df k).1) := by
  rw [dedupe_df_eq hGS]
  show List.Pairwise keyGE
    ((sortRows (dropDup (normalize_ids supply df k).1)).map canonizeRow)
  rw [List.pairwise_map]
  have h := List.sorted_insertionSort keyGE (dropDup (normalize_ids supply df k).1)
  exact List.Pairwise.imp (fun hab => by
    simpa [keyGE, sortKey_canonize] using hab) h

theorem dedupe_df_of_canon {supply : Nat → String} {l : DF} (k : Nat)
    (hc : ∀ r ∈ l, CanonRow r) (hn : (l.map idOf).Nodup) :
    dedupe_df supply l k = ((sortRows l).map canonizeRow, k) := by
  have h1 : normalize_ids supply l k = (l, k) :=
    normalize_ids_fix k (fun r hr => (hc r hr).1)
  have hmem : ∀ r ∈ sortRows l, NormRow r := fun r hr =>
    (hc r ((List.perm_insertionSort keyGE l).mem_iff.mp hr)).1
  calc dedupe_df supply l k
      = normalize_ids supply
          ((sortRows (dropDup (normalize_ids supply l k).1)).map reserializeRow)
          (normalize_ids supply l k).2 := rfl
    _ = normalize_ids supply ((sortRows (dropDup l)).map reserializeRow) k := by
        rw [h1]
    _ = normalize_ids supply ((sortRows l).map reserializeRow) k := by
        rw [dropDup_fix hn]
    _ = ((sortRows l).map canonizeRow, k) := normalize_ids_reser _ k hmem

theorem merge_new_empty {supply : Nat → String} {existing fresh : DF} {k : Nat}
    (he : (dedupe_df supply existing (dedupe_df supply fresh k).2).1 = []) :
    merge_new supply existing fresh k
      = (((dedupe_df supply fresh k).1, (dedupe_df supply fresh k).1.map idOf),
         (dedupe_df supply existing (dedupe_df supply fresh k).2).2) := by
  simp only [merge_new]
  rw [if_pos he]

theorem merge_new_nonempty {supply : Nat → String} {existing fresh : DF} {k : Nat}
    (he : ¬ (dedupe_df supply existing (dedupe_df supply fresh k).2).1 = []) :
    merge_new supply existing fresh k
      = (((dedupe_df supply
            (mergeExisting supply existing fresh k ++ mergeAdded supply existing fresh k)
            (dedupe_df supply existing (dedupe_df supply fresh k).2).2).1,
          (mergeAdded supply existing fresh k).map idOf),
         (dedupe_df supply
            (mergeExisting supply existing fresh k ++ mergeAdded supply existing fresh k)
            (dedupe_df supply existing (dedupe_df supply fresh k).2).2).2) := by
  simp only [merge_new]
  rw [if_neg he]
  rfl

theorem filter_id_single {l : List Row} {re : Row} {i : String}
    (hn : (l.map idOf).Nodup) (hre : re ∈ l) (hi : idOf re = i) :
    l.filter (fun r => decide (idOf r = i)) = [re] := by
  induction l with
  | nil => cases hre
  | cons a as ih =>
      rw [List.map_cons, List.nodup_cons] at hn
      by_cases ha : idOf a = i
      · have hra : re = a := by
          rcases List.mem_cons.mp hre with h | h
          · exact h
          · exact absurd (by rw [ha, ← hi]; exact List.mem_map_of_mem idOf h) hn.1
        have hnil : as.filter (fun r => decide (idOf r = i)) = [] := by
          rw [List.filter_eq_nil_iff]
          intro b hb hdec
          have hbi : idOf b = i := of_decide_eq_true hdec
          exact hn.1 (by rw [ha, ← hbi]; exact List.mem_map_of_mem idOf hb)
        simp [List.filter_cons, ha, hnil, hra]
      · have hre2 : re ∈ as := by
          rcases List.mem_cons.mp hre with h | h
          · exact absurd (h ▸ hi) ha
          · exact h
        simp [List.filter_cons, ha, ih hn.2 hre2]

/-- C1: for every pair of collections, `merge_new` reports as `newIds` exactly
the article ids of the normalized/deduped fresh input that are absent from the
normalized/deduped existing input (no false positives or negatives), and when
the deduped existing collection is empty the combined result is the deduped
fresh collection in its entirety with every one of its ids new. -/
theorem merge_new_delta (supply : Nat → String) (existing fresh : DF) (k : Nat) :
    (∀ x, x ∈ (merge_new supply existing fresh k).1.2 ↔
        (x ∈ (mergeFreshly supply fresh k).map idOf ∧
         x ∉ (mergeExisting supply existing fresh k).map idOf))
    ∧ (mergeExisting supply existing fresh k = [] →
        (merge_new supply existing fresh k).1.1 = mergeFreshly supply fresh k ∧
        (merge_new supply existing fresh k).1.2
          = (mergeFreshly supply fresh k).map idOf) := by
  by_cases he : mergeExisting supply existing fresh k = []
  · have hm := merge_new_empty (he : (dedupe_df supply existing
      (dedupe_df supply fresh k).2).1 = [])
    refine ⟨?_, fun _ => ?_⟩
    · intro x
      rw [hm]
      show x ∈ (mergeFreshly supply fresh k).map idOf ↔ _
      rw [he]
      simp
    · rw [hm]; exact ⟨rfl, rfl⟩
  · have hm := merge_new_nonempty (he : ¬ (dedupe_df supply existing
      (dedupe_df supply fresh k).2).1 = [])
    refine ⟨?_, fun hcon => absurd hcon he⟩
    intro x
    rw [hm]
    show x ∈ (mergeAdded supply existing fresh k).map idOf ↔ _
    unfold mergeAdded
    simp only [List.mem_map, List.mem_filter]
    constructor
    · rintro ⟨r, ⟨hr, hp⟩, rfl⟩
      exact ⟨⟨r, hr, rfl⟩, of_decide_eq_true hp⟩
    · rintro ⟨⟨r, hr, rfl⟩, hnot⟩
      exact ⟨r, ⟨hr, decide_eq_true hnot⟩, rfl⟩

theorem merge_new_delta_witness :
    (merge_new wSup [] [rowOld] 0).1.1 = mergeFreshly wSup [rowOld] 0 ∧
    (merge_new wSup [] [rowOld] 0).1.2 = (mergeFreshly wSup [rowOld] 0).map idOf :=
  (merge_new_delta wSup [] [rowOld] 0).2 (by decide)

/-- C2: the merge is insert-only — when the deduped existing collection
contains a record with id `i`, and the deduped fresh collection contains a
record with the same id but a different title, the combined collection keeps
the existing record's field values unchanged: the unique record with id `i`
in the merge result is the existing record itself. -/
theorem merge_new_insert_only (supply : Nat → String) (existing fresh : DF)
    (k : Nat) (hGS : GoodSupply supply) (i : String) (re rf : Row)
    (hre : re ∈ mergeExisting supply existing fresh k) (hrei : idOf re = i)
    (hrf : rf ∈ mergeFreshly supply fresh k) (hrfi : idOf rf = i)
    (hdiff : rf.title ≠ re.title) :
    ((merge_new supply existing fresh k).1.1).filter
      (fun r => decide (idOf r = i)) = [re] := by
  have he : ¬ (dedupe_df supply existing (dedupe_df supply fresh k).2).1 = [] := by
    intro h
    rw [show mergeExisting supply existing fresh k
      = (dedupe_df supply existing (dedupe_df supply fresh k).2).1 from rfl, h] at hre
    cases hre
  rw [merge_new_nonempty he]
  have hcanonE : ∀ r ∈ mergeExisting supply existing fresh k, CanonRow r :=
    dedupe_df_canon hGS existing (dedupe_df supply fresh k).2
  have hcanonF : ∀ r ∈ mergeFreshly supply fresh k, CanonRow r :=
    dedupe_df_canon hGS fresh k
  have hcanonA : ∀ r ∈ mergeAdded supply existing fresh k, CanonRow r := by
    intro r hr
    exact hcanonF r (List.mem_filter.mp hr).1
  have hnodE : ((mergeExisting supply existing fresh k).map idOf).Nodup :=
    dedupe_df_ids_nodup hGS existing (dedupe_df supply fresh k).2
  have hnodF : ((mergeFreshly supply fresh k).map idOf).Nodup :=
    dedupe_df_ids_nodup hGS fresh k
  have hnodA : ((mergeAdded supply existing fresh k).map idOf).Nodup :=
    hnodF.sublist ((List.filter_sublist _).map idOf)
  have hdisj : ((mergeExisting supply existing fresh k).map idOf).Disjoint
      ((mergeAdded supply existing fresh k).map idOf) := by
    intro x hxE hxA
    obtain ⟨r, hr, rfl⟩ := List.mem_map.mp hxA
    exact (of_decide_eq_true (List.mem_filter.mp hr).2) hxE
  have hcanon : ∀ r ∈ mergeExisting supply existing fresh k
      ++ mergeAdded supply existing fresh k, CanonRow r := by
    intro r hr
    rcases List.mem_append.mp hr with h | h
    · exact hcanonE r h
    · exact hcanonA r h
  have hnodup : (((mergeExisting supply existing fresh k
      ++ mergeAdded supply existing fresh k)).map idOf).Nodup := by
    rw [List.map_append, List.nodup_append]
    exact ⟨hnodE, hnodA, hdisj⟩
  rw [dedupe_df_of_canon (dedupe_df supply existing (dedupe_df supply fresh k).2).2
    hcanon hnodup]
  show ((sortRows (mergeExisting supply existing fresh k
      ++ mergeAdded supply existing fresh k)).map canonizeRow).filter
      (fun r => decide (idOf r = i)) = [re]
  have hmapfix : (sortRows (mergeExisting supply existing fresh k
      ++ mergeAdded supply existing fresh k)).map canonizeRow
      = sortRows (mergeExisting supply existing fresh k
          ++ mergeAdded supply existing fresh k) := by
    calc List.map canonizeRow (sortRows (mergeExisting supply existing fresh k
          ++ mergeAdded supply existing fresh k))
        = List.map id (sortRows (mergeExisting supply existing fresh k
            ++ mergeAdded supply existing fresh k)) :=
          List.map_congr_left (fun r hr => canonize_fix
            (hcanon r ((List.perm_insertionSort keyGE _).mem_iff.mp hr)))
      _ = sortRows (mergeExisting supply existing fresh k
            ++ mergeAdded supply existing fresh k) := List.map_id _
  rw [hmapfix]
  have hfE : (mergeExisting supply existing fresh k).filter
      (fun r => decide (idOf r = i)) = [re] := filter_id_single hnodE hre hrei
  have hfA : (mergeAdded supply existing fresh k).filter
      (fun r => decide (idOf r = i)) = [] := by
    rw [List.filter_eq_nil_iff]
    intro b hb hdec
    have hbi : idOf b = i := of_decide_eq_true hdec
    have hnotE : idOf b ∉ (mergeExisting supply existing fresh k).map idOf :=
      of_decide_eq_true (List.mem_filter.mp hb).2
    exact hnotE (by rw [hbi, ← hrei]; exact List.mem_map_of_mem idOf hre)
  have happ : (mergeExisting supply existing fresh k
      ++ mergeAdded supply existing fresh k).filter
      (fun r => decide (idOf r = i)) = [re] := by
    rw [List.filter_append, hfE, hfA, List.append_nil]
  have hp2 := (List.perm_insertionSort keyGE (mergeExisting supply existing fresh k
      ++ mergeAdded supply existing fresh k)).filter (fun r => decide (idOf r = i))
  rw [happ] at hp2
  exact List.perm_singleton.mp hp2

theorem wSup_good : GoodSupply wSup := fun _ => rfl

theorem merge_new_insert_only_witness :
    ((merge_new wSup [rowOld] [rowNew] 0).1.1).filter
      (fun r => decide (idOf r = "aaa")) = [rowOld] :=
  merge_new_insert_only wSup [rowOld] [rowNew] 0 wSup_good
    "aaa" rowOld rowNew (by decide) (by decide) (by decide) (by decide) (by decide)

/-- C3: the output of `dedupe_df` is sorted by published time descending —
iterating it yields pairwise `keyGE`-related rows, so published times are
non-increasing and rows with missing/unparseable timestamps (key `⊥`) trail
every timestamped row — and the sort is stable: for every key value, the
rows with that key appear in the same order as in the (order-preserving)
normalized, deduplicated input. -/
theorem dedupe_df_ordering (supply : Nat → String) (df : DF) (k : Nat)
    (hGS : GoodSupply supply) :
    List.Pairwise keyGE ((dedupe_df supply df k).1)
    ∧ ∀ v : WithBot String,
        ((dedupe_df supply df k).1).filter (fun r => decide (sortKey r = v))
          = ((dropDup ((normalize_ids supply df k).1)).map canonizeRow).filter
              (fun r => decide (sortKey r = v)) := by
  refine ⟨dedupe_df_sorted hGS df k, fun v => ?_⟩
  rw [dedupe_df_eq hGS]
  show ((sortRows (dropDup (normalize_ids supply df k).1)).map canonizeRow).filter
      (fun r => decide (sortKey r = v)) = _
  rw [filter_key_map_canonize]
  show ((List.insertionSort keyGE (dropDup (normalize_ids supply df k).1)).filter
      (fun r => decide (sortKey r = v))).map canonizeRow = _
  rw [insertionSort_filter_key, ← filter_key_map_canonize]

theorem dedupe_df_ordering_witness :
    List.Pairwise keyGE ((dedupe_df wSup [rowD, rowOld] 0).1)
    ∧ ((dedupe_df wSup [rowD, rowOld] 0).1).filter
        (fun r => decide (sortKey r = ⊥))
      = ((dropDup ((normalize_ids wSup [rowD, rowOld] 0).1)).map canonizeRow).filter
          (fun r => decide (sortKey r = ⊥)) :=
  ⟨(dedupe_df_ordering wSup [rowD, rowOld] 0 wSup_good).1,
   (dedupe_df_ordering wSup [rowD, rowOld] 0 wSup_good).2 ⊥⟩

/-- C4: `dedupe_df` is idempotent — re-running normalization, deduplication,
the stable sort and the canonical re-serialization of `publishedAt` on its
own output (with the threaded uuid4 counter) changes nothing. -/
theorem dedupe_df_idem (supply : Nat → String) (df : DF) (k : Nat)
    (hGS : GoodSupply supply) :
    dedupe_df supply (dedupe_df supply df k).1 (dedupe_df supply df k).2
      = dedupe_df supply df k := by
  have hcanon := dedupe_df_canon hGS df k
  have hnodup := dedupe_df_ids_nodup hGS df k
  have hsorted := dedupe_df_sorted hGS df k
  rw [dedupe_df_of_canon (dedupe_df supply df k).2 hcanon hnodup]
  have hs : sortRows (dedupe_df supply df k).1 = (dedupe_df supply df k).1 :=
    List.Sorted.insertionSort_eq hsorted
  rw [hs]
  have hmapfix : List.map canonizeRow (dedupe_df supply df k).1
      = (dedupe_df supply df k).1 := by
    calc List.map canonizeRow (dedupe_df supply df k).1
        = List.map id (dedupe_df supply df k).1 :=
          List.map_congr_left (fun r hr => canonize_fix (hcanon r hr))
      _ = (dedupe_df supply df k).1 := List.map_id _
  rw [hmapfix]

theorem dedupe_df_idem_witness :
    dedupe_df wSup (dedupe_df wSup [rowNew, rowOld] 0).1
        (dedupe_df wSup [rowNew, rowOld] 0).2
      = dedupe_df wSup [rowNew, rowOld] 0 :=
  dedupe_df_idem wSup [rowNew, rowOld] 0 wSup_good

/-- C9: identity determinism — for a present, non-empty url,
`gen_article_id` ignores the fresh random draw and returns the name-based
`uuid5` of the fixed namespace constant and the url, so two calls always
agree; for an absent or empty url it returns the fresh random draw, so two
calls with distinct draws return distinct ids. -/
theorem gen_article_id_deterministic :
    (∀ f1 f2 u, u ≠ "" →
      gen_article_id f1 (some u) = gen_article_id f2 (some u) ∧
      gen_article_id f1 (some u) = uuid5 NAMESPACE_URL u)
    ∧ (∀ f1 f2, f1 ≠ f2 → gen_article_id f1 none ≠ gen_article_id f2 none)
    ∧ (∀ f1 f2, f1 ≠ f2 →
        gen_article_id f1 (some "") ≠ gen_article_id f2 (some "")) := by
  refine ⟨fun f1 f2 u hu => ?_, fun f1 f2 h => ?_, fun f1 f2 h => ?_⟩
  · simp [gen_article_id, hu]
  · simpa [gen_article_id] using h
  · simpa [gen_article_id] using h

theorem gen_article_id_deterministic_witness :
    gen_article_id "a" (some "http://x") = gen_article_id "b" (some "http://x") ∧
    gen_article_id "a" none ≠ gen_article_id "b" none :=
  ⟨(gen_article_id_deterministic.1 "a" "b" "http://x" (by decide)).1,
   gen_article_id_deterministic.2.1 "a" "b" (by decide)⟩

/-- C8: per-source fault isolation — a feed whose fetch/parse raises
contributes nothing: the multi-source fetch over any url list containing the
failing source returns exactly the result of the fetch without it (the
records of the healthy sources, concatenated in source order and deduped),
and no exception propagates (`fetch_all_feeds` is total). -/
theorem fetch_all_feeds_fault_isolated (feed : String → Except String DF)
    (supply : Nat → String) (k : Nat) (u e : String) (l1 l2 : List String)
    (hu : feed u = Except.error e) :
    fetch_all_feeds feed supply (l1 ++ u :: l2) k
      = fetch_all_feeds feed supply (l1 ++ l2) k := by
  unfold fetch_all_feeds
  simp [List.filterMap_append, List.filterMap_cons, hu, Except.toOption]

theorem fetch_all_feeds_fault_isolated_witness :
    fetch_all_feeds
        (fun u => if u = "bad" then Except.error "net" else Except.ok [rowOld])
        wSup ["good", "bad"] 0
      = fetch_all_feeds
        (fun u => if u = "bad" then Except.error "net" else Except.ok [rowOld])
        wSup ["good"] 0 :=
  fetch_all_feeds_fault_isolated
    (fun u => if u = "bad" then Except.error "net" else Except.ok [rowOld])
    wSup 0 "bad" "net" ["good"] [] rfl

/-- C5 (amended): after a merge that runs to completion, `poll_once` writes
the local snapshot (the full combined collection) exactly when the new-id set
is non-empty — in particular a durable-store upsert failure, which is caught
inside its own try/except, never prevents the snapshot write — and skips the
snapshot write entirely when the new-id set is empty. -/
theorem poll_once_snapshot (supply : Nat → String) (current freshFetched : DF)
    (k : Nat) (dbFails autoDl : Bool) :
    ((merge_new supply current freshFetched k).1.2 ≠ [] →
      Ev.snapshot (merge_new supply current freshFetched k).1.1
        ∈ poll_once supply current freshFetched k dbFails autoDl)
    ∧ ((merge_new supply current freshFetched k).1.2 = [] →
      ∀ d, Ev.snapshot d ∉ poll_once supply current freshFetched k dbFails autoDl) := by
  constructor
  · intro hne
    simp [poll_once, hne]
  · intro hnil d
    simp [poll_once, hnil]

theorem poll_once_snapshot_witness :
    Ev.snapshot (merge_new wSup [] [rowOld] 0).1.1
      ∈ poll_once wSup [] [rowOld] 0 true true :=
  (poll_once_snapshot wSup [] [rowOld] 0 true true).1 (by decide)

theorem poll_once_no_snapshot_counterexample :
    poll_once wSup [rowOld] [rowOld] 0 false true
      = [Ev.upsert [], Ev.refresh [rowOld] []] := by decide

/-- C6 (amended): `save_csv` performs a single direct write of the deduped
collection to the snapshot path — it is not a write-to-temp-then-rename
(no rename operation at all), unlike `export_excel`, which does atomically
replace its output via a temporary file and a rename. -/
theorem save_csv_direct_write (supply : Nat → String) (df : DF) (k : Nat) :
    save_csv supply df k = [FileOp.write CSV_OUT (dedupe_df supply df k).1]
    ∧ ¬ AtomicReplace (save_csv supply df k) CSV_OUT
    ∧ AtomicReplace (export_excel df) XLSX_OUT := by
  refine ⟨rfl, ?_, ?_⟩
  · rintro ⟨tmp, rows, hne, heq⟩
    simp [save_csv] at heq
  · exact ⟨XLSX_TMP, df, by decide, rfl⟩

theorem save_csv_not_atomic_counterexample :
    save_csv wSup [] 0 = [FileOp.write CSV_OUT []] := by decide

theorem rowToDb_deterministic {r : Row}
    (h1 : isValidUUID (fillCell r.article_id) = true) {t : String}
    (ht : parseTime (fillCell r.fetched_at_utc) = some t)
    (f1 f2 : Nat → String) (n1 n2 : String) (k : Nat) :
    rowToDb f1 n1 r k = rowToDb f2 n2 r k := by
  simp [rowToDb, safe_uuid, h1, ht]

/-- C7 (amended): the upsert batch is a deterministic function of the input
DataFrame — and hence idempotent and retry-safe — provided every row's
article id is a valid UUID string and every fetch timestamp parses; for such
frames two runs of `df_to_rows`, with different random-UUID supplies and
different clock values, produce identical row tuples with identical keys. -/
theorem df_to_rows_deterministic (f1 f2 : Nat → String) (n1 n2 : String) :
    ∀ (df : DF) (k : Nat),
      (∀ r ∈ df, isValidUUID (fillCell r.article_id) = true) →
      (∀ r ∈ df, (parseTime (fillCell r.fetched_at_utc)).isSome = true) →
      df_to_rows f1 n1 df k = df_to_rows f2 n2 df k
  | [], _, _, _ => rfl
  | r :: rs, k, hid, hfet => by
      have h1 := hid r (List.mem_cons_self r rs)
      obtain ⟨t, ht⟩ :=
        Option.isSome_iff_exists.mp (hfet r (List.mem_cons_self r rs))
      have hrow := rowToDb_deterministic h1 ht f1 f2 n1 n2 k
      have htail := df_to_rows_deterministic f1 f2 n1 n2 rs (rowToDb f1 n1 r k).2
        (fun x hx => hid x (List.mem_cons_of_mem _ hx))
        (fun x hx => hfet x (List.mem_cons_of_mem _ hx))
      rw [hrow] at htail
      simp [df_to_rows, hrow, htail]

theorem df_to_rows_deterministic_witness :
    df_to_rows (fun _ => "r1") "now1" [rowValid] 0
      = df_to_rows (fun _ => "r2") "now2" [rowValid] 0 :=
  df_to_rows_deterministic (fun _ => "r1") (fun _ => "r2") "now1" "now2"
    [rowValid] 0 (by decide) (by decide)

theorem df_to_rows_nondet_counterexample :
    (df_to_rows (fun _ => "11111111-1111-1111-1111-111111111111")
        "2024-01-01T00:00:00Z" [badRow] 0).1
      ≠ (df_to_rows (fun _ => "22222222-2222-2222-2222-222222222222")
        "2024-01-01T00:00:00Z" [badRow] 0).1 := by decide

theorem take_set_of_le {α : Type} (l : List α) :
    ∀ (n i : Nat) (v : α), n ≤ i → (l.set i v).take n = l.take n := by
  induction l with
  | nil => intro n i v _; simp
  | cons a as ih =>
      intro n i v h
      cases n with
      | zero => simp
      | succ m =>
          cases i with
          | zero => exact absurd h (by omega)
          | succ j =>
              rw [List.set_cons_succ, List.take_succ_cons, List.take_succ_cons,
                ih m j v (Nat.le_of_succ_le_succ h)]

theorem Extends.refl (s : PdState) : Extends s s := List.take_length s.heap

theorem Extends.len_le {s t : PdState} (h : Extends s t) :
    s.heap.length ≤ t.heap.length := by
  have h2 := congrArg List.length h
  rw [List.length_take] at h2
  omega

theorem Extends.trans {s t u : PdState} (h1 : Extends s t) (h2 : Extends t u) :
    Extends s u := by
  have hle := h1.len_le
  show u.heap.take s.heap.length = s.heap
  calc u.heap.take s.heap.length
      = (u.heap.take t.heap.length).take s.heap.length := by
        rw [List.take_take, Nat.min_eq_left hle]
    _ = t.heap.take s.heap.length := by rw [h2]
    _ = s.heap := h1

theorem extends_alloc {s t : PdState} (h : Extends s t) (v : DF) :
    Extends s (t.alloc v).2 := by
  have hle := h.len_le
  show (t.heap ++ [v]).take s.heap.length = s.heap
  rw [List.take_append_of_le_length hle]
  exact h

theorem extends_set {s t : PdState} (h : Extends s t) {r : Nat}
    (hr : s.heap.length ≤ r) (v : DF) : Extends s (t.set r v) := by
  show (t.heap.set r v).take s.heap.length = s.heap
  rw [take_set_of_le t.heap s.heap.length r v hr]
  exact h

theorem extends_ctr {s t : PdState} (h : Extends s t) (c : Nat) :
    Extends s ⟨t.heap, c⟩ := h

theorem normalize_idsS_extends (supply : Nat → String) (i : Nat) (st : PdState) :
    Extends st (normalize_idsS supply i st).2 ∧
    st.heap.length ≤ (normalize_idsS supply i st).1 := by
  unfold normalize_idsS
  by_cases h : st.get i = []
  · rw [if_pos h]
    exact ⟨extends_alloc (Extends.refl st) _, Nat.le_refl _⟩
  · rw [if_neg h]
    dsimp only
    set a1 := st.alloc (st.get i) with ha1
    set s2 := a1.2.set a1.1 (a1.2.get a1.1) with hs2
    set a2 := s2.alloc ((s2.get a1.1).map fillRow) with ha2
    set bf := backfillList supply (a2.2.get a2.1) a2.2.ctr with hbf
    set s4 : PdState := ⟨(a2.2.set a2.1 bf.1).heap, bf.2⟩ with hs4
    have h1 : Extends st a1.2 := by rw [ha1]; exact extends_alloc (Extends.refl st) _
    have hj1 : st.heap.length ≤ a1.1 := by rw [ha1]; exact Nat.le_refl _
    have h2 : Extends st s2 := by rw [hs2]; exact extends_set h1 hj1 _
    have h3 : Extends st a2.2 := by rw [ha2]; exact extends_alloc h2 _
    have hj2 : st.heap.length ≤ a2.1 := by rw [ha2]; exact h2.len_le
    have h4 : Extends st s4 := by
      rw [hs4]; exact extends_ctr (extends_set h3 hj2 _) _
    exact ⟨extends_alloc h4 _, h4.len_le⟩

theorem dedupe_dfS_extends (supply : Nat → String) (i : Nat) (st : PdState) :
    Extends st (dedupe_dfS supply i st).2 ∧
    st.heap.length ≤ (dedupe_dfS supply i st).1 := by
  unfold dedupe_dfS
  dsimp only
  obtain ⟨e1, r1⟩ := normalize_idsS_extends supply i st
  set n1 := normalize_idsS supply i st with hn1
  set a1 := n1.2.alloc (dropDup (n1.2.get n1.1)) with ha1
  set a2 := a1.2.alloc (sortRows (a1.2.get a1.1)) with ha2
  set s3 := a2.2.set a2.1 ((a2.2.get a2.1).map reserializeRow) with hs3
  have e2 : Extends st a1.2 := by rw [ha1]; exact extends_alloc e1 _
  have e3 : Extends st a2.2 := by rw [ha2]; exact extends_alloc e2 _
  have hj : st.heap.length ≤ a2.1 := by rw [ha2]; exact e2.len_le
  have e4 : Extends st s3 := by rw [hs3]; exact extends_set e3 hj _
  obtain ⟨e5, r5⟩ := normalize_idsS_extends supply a2.1 s3
  exact ⟨e4.trans e5, le_trans e4.len_le r5⟩

set_option maxHeartbeats 1000000 in
theorem merge_newS_extends (supply : Nat → String) (iE iF : Nat) (st : PdState) :
    Extends st (merge_newS supply iE iF st).2 := by
  unfold merge_newS
  dsimp only
  obtain ⟨ef, rf2⟩ := dedupe_dfS_extends supply iF st
  set f := dedupe_dfS supply iF st with hf
  obtain ⟨ee, -⟩ := dedupe_dfS_extends supply iE f.2
  set e := dedupe_dfS supply iE f.2 with he2
  have eE : Extends st e.2 := ef.trans ee
  split
  · exact eE
  · dsimp only
    set s3 := e.2.set f.1 (e.2.get f.1) with hs3
    have e3 : Extends st s3 := by rw [hs3]; exact extends_set eE rf2 _
    set a1 := s3.alloc ((s3.get f.1).filter
      (fun r => decide (idOf r ∉ (e.2.get e.1).map idOf))) with ha1
    have e4 : Extends st a1.2 := by rw [ha1]; exact extends_alloc e3 _
    set a2 := a1.2.alloc (a1.2.get e.1 ++ a1.2.get a1.1) with ha2
    have e5 : Extends st a2.2 := by rw [ha2]; exact extends_alloc e4 _
    obtain ⟨e6, -⟩ := dedupe_dfS_extends supply a2.1 a2.2
    exact e5.trans e6

/-- C10: the pipeline does not mutate its arguments — at the object level,
`normalize_ids` (which copies before mutating), `dedupe_df` and `merge_new`
leave every pre-existing heap object, in particular the caller's argument
frames, exactly as they were: all writes land on freshly allocated copies. -/
theorem pipeline_no_arg_mutation (supply : Nat → String) (st : PdState)
    (i j : Nat) :
    (normalize_idsS supply i st).2.heap.take st.heap.length = st.heap
    ∧ (dedupe_dfS supply i st).2.heap.take st.heap.length = st.heap
    ∧ (merge_newS supply i j st).2.heap.take st.heap.length = st.heap :=
  ⟨(normalize_idsS_extends supply i st).1, (dedupe_dfS_extends supply i st).1,
   merge_newS_extends supply i j st⟩
